import Mathlib

/-!
Verification of the frontblok-crud data-access layer.

The development shallowly embeds the naming/pluralization engine and the
endpoint construction of the Entity Client (src/src/index.ts utils section and
src/src/api.ts), together with the reactive fetch/mutation/form state machines
of the React hooks file, and proves or refutes the frozen specification claims
about them.

JavaScript strings are modelled as `List Char` (`JStr`); JS `slice`,
`endsWith`, `includes` and `toLowerCase` are modelled by the corresponding
list operations below.  Asynchronous handlers are modelled as explicit step
functions from (state at resolution time, outcome of the awaited call) to the
updated state, so that arbitrary interleavings of issue / resolve / teardown
events can be examined as traces.
-/

/-- A JavaScript string, as its sequence of characters. -/
abbrev JStr := List Char

/-- JS `str.toLowerCase()` (per-character lowering; adequate for ASCII). -/
def lowerStr (s : JStr) : JStr := s.map Char.toLower

/-- JS `str.endsWith(suffix)`. -/
def endsWithStr (s suff : JStr) : Bool := decide (suff <:+ s)

/-- JS `hay.includes(needle)` (substring containment). -/
def includesStr (hay needle : JStr) : Bool := decide (needle <:+: hay)

/-- JS `str.slice(0, -n)`: the string without its last `n` characters. -/
def dropEnd (s : JStr) (n : Nat) : JStr := s.take (s.length - n)

/-- JS `str.slice(-1)`: the last character as a one-character string. -/
def lastStr (s : JStr) : JStr := s.drop (s.length - 1)

/-- JS `str.slice(-2, -1)`: the second-to-last character (only ever consulted
under a `length > 1` guard, where it agrees with the JS expression). -/
def secondStr (s : JStr) : JStr := (s.drop (s.length - 2)).take 1

-- Character-list literals used by the naming engine (source string literals).

def sL : JStr := ['s']

def eL : JStr := ['e']

def yL : JStr := ['y']

def ieL : JStr := ['i', 'e']

def esL : JStr := ['e', 's']

def iesL : JStr := ['i', 'e', 's']

def chL : JStr := ['c', 'h']

def shL : JStr := ['s', 'h']

def ssL : JStr := ['s', 's']

def xL : JStr := ['x']

def zL : JStr := ['z']

def oL : JStr := ['o']

/-- The string literal `'aeiou'` of the consonant-`y` test. -/
def vowels : JStr := ['a', 'e', 'i', 'o', 'u']

/-- `['ch', 'sh', 'x', 'z', 'o']` — the `es`-endings list of `toPlural`. -/
def esEndings : List JStr := [chL, shL, xL, zL, oL]

/-- `['ch', 'sh', 'ss', 'x', 'z', 'o']` — the stem test list of `toSingular`. -/
def esStems : List JStr := [chL, shL, ssL, xL, zL, oL]

/-- `toSingular` from src/src/index.ts (utils): `ies`-words (length > 3) get
`y` back, `es`-words whose stem ends in ch/sh/ss/x/z/o drop `es`, other
`es`-words drop only `s`, other `s`-words (length > 1) drop `s`. -/
def toSingular (s : JStr) : JStr :=
  if endsWithStr s iesL && decide (3 < s.length) then
    dropEnd s 3 ++ yL
  else if endsWithStr s esL && decide (2 < s.length) then
    (if esStems.any (fun u => endsWithStr (dropEnd s 2) u) then dropEnd s 2
     else dropEnd s 1)
  else if endsWithStr s sL && decide (1 < s.length) then
    dropEnd s 1
  else s

/-- `toPlural` from src/src/index.ts (utils): empty and `s`-ending words are
unchanged, consonant-`y` becomes `ies`, ch/sh/x/z/o-endings append `es`,
otherwise append `s`. -/
def toPlural (s : JStr) : JStr :=
  if s.isEmpty then s
  else if endsWithStr (lowerStr s) sL then s
  else if decide (1 < s.length) && (lowerStr (lastStr s) == yL)
          && !(includesStr vowels (lowerStr (secondStr s))) then
    dropEnd s 1 ++ iesL
  else if esEndings.any (fun u => endsWithStr (lowerStr s) u) then s ++ esL
  else s ++ sL

-- ============================================================================
-- Entity Client (src/src/api.ts)
-- ============================================================================

/-- A JavaScript value as it can appear as a query-option value or as a thrown
value: `undefined`, `null`, a string, a (natural) number, a boolean, or an
`Error` object carrying a message. -/
inductive JsVal where
  | undef : JsVal
  | jsNull : JsVal
  | str : JStr → JsVal
  | num : Nat → JsVal
  | boolV : Bool → JsVal
  | errObj : JStr → JsVal
deriving DecidableEq

/-- JS `String(value)` on the values of `JsVal`. -/
def jsString : JsVal → JStr
  | .undef => ("undefined".toList)
  | .jsNull => ("null".toList)
  | .str s => s
  | .num n => (Nat.repr n).toList
  | .boolV true => ("true".toList)
  | .boolV false => ("false".toList)
  | .errObj m => ("Error: ".toList) ++ m

/-- The filter `value !== undefined && value !== null` of `getAll`. -/
def definedVal (v : JsVal) : Bool := !(v == JsVal.undef) && !(v == JsVal.jsNull)

/-- Characters that `URLSearchParams` serialization leaves unescaped
(ASCII alphanumerics and `*`, `-`, `.`, `_`). -/
def urlSafeChar (c : Char) : Bool :=
  c.isAlphanum || c == '*' || c == '-' || c == '.' || c == '_'

/-- UTF-8 bytes of a character, as natural numbers. -/
def utf8Bytes (c : Char) : List Nat :=
  let n := c.toNat
  if n < 0x80 then [n]
  else if n < 0x800 then
    [0xC0 ||| (n >>> 6), 0x80 ||| (n &&& 0x3F)]
  else if n < 0x10000 then
    [0xE0 ||| (n >>> 12), 0x80 ||| ((n >>> 6) &&& 0x3F), 0x80 ||| (n &&& 0x3F)]
  else
    [0xF0 ||| (n >>> 18), 0x80 ||| ((n >>> 12) &&& 0x3F),
     0x80 ||| ((n >>> 6) &&& 0x3F), 0x80 ||| (n &&& 0x3F)]

/-- Upper-case hexadecimal digit. -/
def hexChar (n : Nat) : Char := ("0123456789ABCDEF".toList).getD n '0'

/-- `application/x-www-form-urlencoded` encoding of one character: space
becomes `+`, safe characters stand for themselves, everything else is
percent-encoded byte-wise. -/
def encodeChar (c : Char) : JStr :=
  if c == ' ' then ['+']
  else if urlSafeChar c then [c]
  else (utf8Bytes c).foldr
    (fun b acc => '%' :: hexChar (b / 16) :: hexChar (b % 16) :: acc) []

/-- `application/x-www-form-urlencoded` encoding of a string. -/
def urlencode (s : JStr) : JStr := s.foldr (fun c acc => encodeChar c ++ acc) []

/-- One `key=value` component of `URLSearchParams.toString()`. -/
def serializePair (kv : JStr × JStr) : JStr :=
  urlencode kv.1 ++ ['='] ++ urlencode kv.2

/-- `URLSearchParams.toString()`: encoded `key=value` pairs joined by `&`. -/
def paramsToString (ps : List (JStr × JStr)) : JStr :=
  List.intercalate ['&'] (ps.map serializePair)

namespace UniversalApi

/-- `UniversalApi.pluralize` from src/src/api.ts — a verbatim duplicate of the
`toPlural` algorithm of src/src/index.ts. -/
def pluralize (s : JStr) : JStr :=
  if s.isEmpty then s
  else if endsWithStr (lowerStr s) sL then s
  else if decide (1 < s.length) && (lowerStr (lastStr s) == yL)
          && !(includesStr vowels (lowerStr (secondStr s))) then
    dropEnd s 1 ++ iesL
  else if esEndings.any (fun u => endsWithStr (lowerStr s) u) then s ++ esL
  else s ++ sL

/-- The `URLSearchParams` accumulation loop of `getAll`: append
`(key, String(value))` for every entry whose value is neither `undefined` nor
`null`, in iteration order. -/
def buildParams (entries : List (JStr × JsVal)) : List (JStr × JStr) :=
  entries.foldl
    (fun ps kv => if definedVal kv.2 then ps ++ [(kv.1, jsString kv.2)] else ps)
    []

/-- The query-string computation of `getAll`: empty when `options` is absent
or serializes to nothing, otherwise `?` followed by the serialization. -/
def buildQuery (opts : Option (List (JStr × JsVal))) : JStr :=
  match opts with
  | none => []
  | some entries =>
    let queryString := paramsToString (buildParams entries)
    if queryString.isEmpty then [] else '?' :: queryString

/-- The request path issued by `getAll`:
`/api/${pluralize(entityName)}/${query}`. -/
def getAllPath (entityName : JStr) (opts : Option (List (JStr × JsVal))) : JStr :=
  ("/api/".toList) ++ pluralize entityName ++ ('/' :: buildQuery opts)

end UniversalApi

-- ============================================================================
-- React hooks (src/unnamed/part_000)
-- ============================================================================

/-- The uniform error object the hooks store and throw: a JS `Error` carrying
a message. -/
structure ErrObj where
  message : JStr
deriving DecidableEq

/-- `err instanceof Error ? err : new Error(String(err))` — the coercion every
hook applies to a caught value. -/
def coerceErr : JsVal → ErrObj
  | .errObj m => ⟨m⟩
  | v => ⟨jsString v⟩

/-- State of one `useEntityList` instance: the three state cells plus the
`isMounted` ref (the teardown flag set to `false` by the effect cleanup). -/
structure ListS (T : Type) where
  items : List T
  loading : Bool
  error : Option ErrObj
  mounted : Bool
deriving DecidableEq

/-- The synchronous prefix of `useEntityList.fetchData`:
`setLoading(true); setError(null)` before the request is awaited. -/
def listIssue {T : Type} (st : ListS T) : ListS T :=
  { st with loading := true, error := none }

/-- The resolution handler of `useEntityList.fetchData`: on success
`setItems(data)` under the mounted guard, on failure `setError(coerced)` under
the mounted guard, and in both cases `setLoading(false)` under the mounted
guard.  There is no issue-sequence check: the handler applies whenever its own
request settles. -/
def listResolve {T : Type} (st : ListS T) (o : Except JsVal (List T)) : ListS T :=
  let st1 :=
    match o with
    | .ok d => if st.mounted then { st with items := d } else st
    | .error e => if st.mounted then { st with error := some (coerceErr e) } else st
  if st1.mounted then { st1 with loading := false } else st1

/-- Scheduler events for one `useEntityList` instance: `issue` is a
mount-fetch or `refetch()` call, `resolve o` is the settlement of one pending
request with outcome `o`, `unmount` is the effect cleanup. -/
inductive LEv (T : Type) where
  | issue : LEv T
  | resolve : Except JsVal (List T) → LEv T
  | unmount : LEv T

/-- One scheduler step of a `useEntityList` instance. -/
def listStep {T : Type} (st : ListS T) : LEv T → ListS T
  | .issue => listIssue st
  | .resolve o => listResolve st o
  | .unmount => { st with mounted := false }

/-- Run a `useEntityList` instance through a sequence of scheduler events. -/
def listRun {T : Type} (st : ListS T) (evs : List (LEv T)) : ListS T :=
  evs.foldl listStep st

/-- State of one `useEntity` instance. -/
structure EntS (T : Type) where
  item : Option T
  loading : Bool
  error : Option ErrObj
  mounted : Bool
deriving DecidableEq

/-- JS truth-test `!id` for `id : string | undefined`: true for `undefined`
and for the empty string. -/
def jsFalsyId : Option JStr → Bool
  | none => true
  | some s => s.isEmpty

/-- Initial state of `useEntity`: `item = null`, `loading = !!id`,
`error = null`, mounted. -/
def entityInit (T : Type) (id : Option JStr) : EntS T :=
  { item := none, loading := !(jsFalsyId id), error := none, mounted := true }

/-- The synchronous prefix of `useEntity.fetchData`.  With no usable `id` it
sets `item = null`, `loading = false` and returns without touching the Entity
Client; otherwise it sets `loading = true`, clears the error and issues the
request.  The second component records whether a request was issued. -/
def entityFetchStart {T : Type} (id : Option JStr) (st : EntS T) : EntS T × Bool :=
  if jsFalsyId id then ({ st with item := none, loading := false }, false)
  else ({ st with loading := true, error := none }, true)

/-- The resolution handler of `useEntity.fetchData`: on success
`setItem(data)` under the mounted guard; on failure `setError(coerced)` and
`setItem(null)` under the mounted guard; finally `setLoading(false)` under the
mounted guard. -/
def entityResolve {T : Type} (st : EntS T) (o : Except JsVal T) : EntS T :=
  let st1 :=
    match o with
    | .ok d => if st.mounted then { st with item := some d } else st
    | .error e =>
      if st.mounted then { st with error := some (coerceErr e), item := none }
      else st
  if st1.mounted then { st1 with loading := false } else st1

/-- Scheduler events for one `useEntity` instance. -/
inductive EEv (T : Type) where
  | issue : Option JStr → EEv T
  | resolve : Except JsVal T → EEv T
  | unmount : EEv T

/-- One scheduler step of a `useEntity` instance. -/
def entStep {T : Type} (st : EntS T) : EEv T → EntS T
  | .issue id => (entityFetchStart id st).1
  | .resolve o => entityResolve st o
  | .unmount => { st with mounted := false }

/-- Run a `useEntity` instance through a sequence of scheduler events. -/
def entRun {T : Type} (st : EntS T) (evs : List (EEv T)) : EntS T :=
  evs.foldl entStep st

/-- State of one `useMutation` instance: the three state cells plus the
mounted status of the owning component.  The hook itself keeps no teardown
ref, so none of its handlers ever consults `mounted`. -/
structure MutS (T : Type) where
  data : Option T
  loading : Bool
  error : Option ErrObj
  mounted : Bool
deriving DecidableEq

/-- The synchronous prefix of every mutation operation:
`setLoading(true); setError(null)`. -/
def mutStart {T : Type} (st : MutS T) : MutS T :=
  { st with loading := true, error := none }

/-- Resolution of `useMutation`'s `create`: on success `setData(result)` and
return it; on failure coerce, `setError`, re-throw; `finally`
`setLoading(false)`.  No mounted guard anywhere. -/
def mutResolveCreate {T : Type} (st : MutS T) (o : Except JsVal T) :
    MutS T × Except ErrObj T :=
  match o with
  | .ok r => ({ st with data := some r, loading := false }, .ok r)
  | .error e =>
    ({ st with error := some (coerceErr e), loading := false },
     .error (coerceErr e))

/-- Resolution of `useMutation`'s `update` — identical handling to `create`. -/
def mutResolveUpdate {T : Type} (st : MutS T) (o : Except JsVal T) :
    MutS T × Except ErrObj T :=
  match o with
  | .ok r => ({ st with data := some r, loading := false }, .ok r)
  | .error e =>
    ({ st with error := some (coerceErr e), loading := false },
     .error (coerceErr e))

/-- Resolution of `useMutation`'s `remove`: on success `setData(null)`;
failure handling as in `create`. -/
def mutResolveRemove {T : Type} (st : MutS T) (o : Except JsVal Unit) :
    MutS T × Except ErrObj Unit :=
  match o with
  | .ok _ => ({ st with data := none, loading := false }, .ok ())
  | .error e =>
    ({ st with error := some (coerceErr e), loading := false },
     .error (coerceErr e))

/-- A full `create(input)` call with no interleaved teardown: synchronous
prefix, then resolution with outcome `o`. -/
def mutCreate {T : Type} (st : MutS T) (o : Except JsVal T) :
    MutS T × Except ErrObj T :=
  mutResolveCreate (mutStart st) o

/-- A full `update(id, input)` call with no interleaved teardown. -/
def mutUpdate {T : Type} (st : MutS T) (_id : JStr) (o : Except JsVal T) :
    MutS T × Except ErrObj T :=
  mutResolveUpdate (mutStart st) o

/-- A full `remove(id)` call with no interleaved teardown. -/
def mutRemove {T : Type} (st : MutS T) (_id : JStr) (o : Except JsVal Unit) :
    MutS T × Except ErrObj Unit :=
  mutResolveRemove (mutStart st) o

-- ============================================================================
-- Composite form state machine (useEntityForm)
-- ============================================================================

/-- Outcome of calling `remove()` on a `useEntityForm` instance: either the
synchronously thrown error (no Entity Client call is made), or delegation to
the mutation machine's `remove(id)`. -/
inductive FormRemoveOutcome where
  | threw : ErrObj → FormRemoveOutcome
  | delegated : JStr → FormRemoveOutcome
deriving DecidableEq

/-- `useEntityForm`'s `remove`: `isEdit = Boolean(id)`; if `!isEdit || !id`
throw `Error('Cannot delete: no entity ID provided')`, otherwise call
`mutate.remove(id)`. -/
def formRemoveAction (id : Option JStr) : FormRemoveOutcome :=
  let isEdit := !(jsFalsyId id)
  if !isEdit || jsFalsyId id then
    .threw ⟨("Cannot delete: no entity ID provided".toList)⟩
  else
    .delegated (match id with | some s => s | none => [])

-- ============================================================================
-- General lemmas about the string model
-- ============================================================================

theorem endsWithStr_iff {s u : JStr} : endsWithStr s u = true ↔ u <:+ s := by
  simp [endsWithStr]

theorem endsWithStr_append (t u : JStr) : endsWithStr (t ++ u) u = true :=
  endsWithStr_iff.mpr (List.suffix_append t u)

theorem endsWithStr_append_right (s u v : JStr) :
    endsWithStr (s ++ v) (u ++ v) = endsWithStr s u := by
  by_cases h : u <:+ s
  · obtain ⟨t, ht⟩ := h
    have h2 : u ++ v <:+ s ++ v := ⟨t, by rw [← List.append_assoc, ht]⟩
    rw [endsWithStr, endsWithStr, decide_eq_true h2, decide_eq_true ⟨t, ht⟩]
  · have h2 : ¬ (u ++ v <:+ s ++ v) := by
      rintro ⟨t, ht⟩
      rw [← List.append_assoc] at ht
      exact h ⟨t, List.append_cancel_right ht⟩
    rw [endsWithStr, endsWithStr, decide_eq_false h2, decide_eq_false h]

theorem dropEnd_append (t u : JStr) : dropEnd (t ++ u) u.length = t := by
  have h : (t ++ u).length - u.length = t.length := by
    simp [List.length_append]
  rw [dropEnd, h]
  exact List.take_left t u

theorem lastStr_concat (t : JStr) (c : Char) : lastStr (t ++ [c]) = [c] := by
  have h : (t ++ [c]).length - 1 = t.length := by
    simp [List.length_append]
  rw [lastStr, h]
  exact List.drop_left t [c]

theorem single_suffix_iff {t : JStr} {a b : Char} : [b] <:+ t ++ [a] ↔ b = a := by
  constructor
  · rintro ⟨w, hw⟩
    have h1 : (w ++ [b]).getLast? = some b := List.getLast?_concat w
    rw [hw, List.getLast?_concat] at h1
    exact (Option.some.inj h1).symm
  · rintro rfl
    exact List.suffix_append t _

theorem lowerStr_append (t u : JStr) :
    lowerStr (t ++ u) = lowerStr t ++ lowerStr u :=
  List.map_append Char.toLower t u

theorem intercalate_cons_exists (sep a : JStr) (l : List JStr) :
    ∃ w, List.intercalate sep (a :: l) = a ++ w := by
  cases l with
  | nil => exact ⟨[], by simp [List.intercalate]⟩
  | cons b m =>
    exact ⟨sep ++ (List.intersperse sep (b :: m)).flatten, by
      simp [List.intercalate, List.append_assoc]⟩

theorem paramsToString_cons_ne_nil (kv : JStr × JStr) (rest : List (JStr × JStr)) :
    paramsToString (kv :: rest) ≠ [] := by
  obtain ⟨w, hw⟩ :=
    intercalate_cons_exists ['&'] (serializePair kv) (rest.map serializePair)
  rw [paramsToString, List.map_cons, hw]
  simp [serializePair, List.append_eq_nil]

theorem buildParams_eq (entries : List (JStr × JsVal)) :
    UniversalApi.buildParams entries =
      (entries.filter (fun kv => definedVal kv.2)).map
        (fun kv => (kv.1, jsString kv.2)) := by
  have key : ∀ (l : List (JStr × JsVal)) (acc : List (JStr × JStr)),
      l.foldl
          (fun ps kv =>
            if definedVal kv.2 then ps ++ [(kv.1, jsString kv.2)] else ps) acc
        = acc ++ (l.filter (fun kv => definedVal kv.2)).map
            (fun kv => (kv.1, jsString kv.2)) := by
    intro l
    induction l with
    | nil => intro acc; simp
    | cons kv t ih =>
      intro acc
      by_cases h : definedVal kv.2
      · simp [List.foldl_cons, h, ih, List.filter_cons]
      · simp [List.foldl_cons, h, ih, List.filter_cons]
  simpa [UniversalApi.buildParams] using key entries []

-- ============================================================================
-- Claim theorems
-- ============================================================================

/-- Claim C1, counterexample.  One `useEntityList` instance calls `refetch()`
twice before either request resolves; request r1 will answer `[1]`, request r2
(the later-issued one) will answer `[2]`.  The scheduler delivers r2's
response first and r1's response second.  The final state holds `[1]` — the
result of the earlier-issued call — so the state does not reflect the result
of the later-issued call, refuting last-issued-wins: the handlers carry no
issue-sequence guard and every resolution is applied as it arrives. -/
theorem frontblok_C1_counterexample :
    listRun (T := Nat) ⟨[], true, none, true⟩
        [.issue, .issue, .resolve (.ok [2]), .resolve (.ok [1])]
      = ⟨[1], false, none, true⟩ ∧ ([1] : List Nat) ≠ [2] := by
  decide

/-- Claim C1, amended.  For both fetch machines, when `refetch()` is issued
twice before either request resolves and both requests then succeed while the
instance stays mounted, the final state reflects the result of whichever
request resolves last (last-resolved-wins), with `loading = false` and no
error; the later-issued call's result wins exactly when that call resolves
last. -/
theorem frontblok_C1_last_resolved_wins :
    (∀ (T : Type) (it d1 d2 : List T) (ld : Bool) (er : Option ErrObj),
        listRun ⟨it, ld, er, true⟩
            [.issue, .issue, .resolve (.ok d1), .resolve (.ok d2)]
          = ⟨d2, false, none, true⟩)
    ∧ (∀ (T : Type) (it : Option T) (x y : T) (ld : Bool) (er : Option ErrObj),
        entRun ⟨it, ld, er, true⟩
            [.issue (some ("id1".toList)), .issue (some ("id1".toList)),
             .resolve (.ok x), .resolve (.ok y)]
          = ⟨some y, false, none, true⟩) :=
  ⟨fun _ _ _ _ _ _ => rfl, fun _ _ _ _ _ _ => rfl⟩

/-- Claim C2, counterexample.  A `useMutation` instance whose owning component
has been torn down (`mounted = false`) has a pending `create` request; the
request rejects with the thrown string `"boom"`.  The resolution handler has
no teardown guard: it still re-throws the coerced error to the awaiting
caller (second conjunct) and still writes the error state cell (third
conjunct), refuting the claim that a request resolving after teardown mutates
no state and does not throw. -/
theorem frontblok_C2_counterexample :
    (⟨none, true, none, false⟩ : MutS JStr).mounted = false
    ∧ (mutResolveCreate (⟨none, true, none, false⟩ : MutS JStr)
         (.error (.str ("boom".toList)))).2 = .error ⟨("boom".toList)⟩
    ∧ (mutResolveCreate (⟨none, true, none, false⟩ : MutS JStr)
         (.error (.str ("boom".toList)))).1.error = some ⟨("boom".toList)⟩ :=
  ⟨rfl, rfl, rfl⟩

/-- Claim C2, amended.  For the list and single-entity fetch machines the
claim holds: once the instance is torn down (`mounted = false`), a still
pending request that later resolves or rejects leaves the state completely
unchanged (the handlers check the teardown flag before every write, and catch
every rejection, so nothing is thrown).  The mutation machine is the
exception exhibited by the counterexample: its handlers never consult the
teardown flag. -/
theorem frontblok_C2_fetch_teardown_safe :
    (∀ (T : Type) (it : List T) (ld : Bool) (er : Option ErrObj)
        (o : Except JsVal (List T)),
        listResolve ⟨it, ld, er, false⟩ o = ⟨it, ld, er, false⟩)
    ∧ (∀ (T : Type) (it : Option T) (ld : Bool) (er : Option ErrObj)
        (o : Except JsVal T),
        entityResolve ⟨it, ld, er, false⟩ o = ⟨it, ld, er, false⟩) := by
  constructor
  · intro T it ld er o
    cases o <;> rfl
  · intro T it ld er o
    cases o <;> rfl

/-- Claim C4.  `UniversalApi.pluralize` returns exactly the same string as the
exported `toPlural` on every input, and consequently `getAll("task")` and
`getAll("tasks")` compute the same request path for any options. -/
theorem frontblok_C4_pluralize_agrees :
    (∀ s : JStr, UniversalApi.pluralize s = toPlural s)
    ∧ (∀ opts : Option (List (JStr × JsVal)),
        UniversalApi.getAllPath ("task".toList) opts
          = UniversalApi.getAllPath ("tasks".toList) opts) := by
  constructor
  · intro s
    rfl
  · intro opts
    unfold UniversalApi.getAllPath
    have h : UniversalApi.pluralize ("task".toList)
        = UniversalApi.pluralize ("tasks".toList) := by decide
    rw [h]

/-- Claim C5.  `getAll(entityName, options)` issues its request on
`/api/` ++ pluralize(entityName) ++ `/` followed by a query string containing
exactly the options entries whose values are neither `undefined` nor `null`,
serialized as `key=value` pairs (URL-encoded, as `URLSearchParams` does)
joined by `&` and preceded by `?`; with no such entry the path carries no
query suffix.  In particular `getAll("tasks", {status: "done", limit: 10})`
yields `/api/tasks/?status=done&limit=10` and `getAll("tasks",
{status: undefined})` yields `/api/tasks/`. -/
theorem frontblok_C5_getAll_query :
    (∀ (name : JStr) (entries : List (JStr × JsVal)),
        UniversalApi.getAllPath name (some entries) =
          ("/api/".toList) ++ UniversalApi.pluralize name ++ ('/' ::
            (if entries.filter (fun kv => definedVal kv.2) = [] then []
             else '?' :: List.intercalate ['&']
               ((entries.filter (fun kv => definedVal kv.2)).map
                 (fun kv => urlencode kv.1 ++ '=' :: urlencode (jsString kv.2))))))
    ∧ (∀ name : JStr,
        UniversalApi.getAllPath name none
          = ("/api/".toList) ++ UniversalApi.pluralize name ++ ['/'])
    ∧ UniversalApi.getAllPath ("tasks".toList)
        (some [(("status".toList), JsVal.str ("done".toList)),
               (("limit".toList), JsVal.num 10)])
        = ("/api/tasks/?status=done&limit=10".toList)
    ∧ UniversalApi.getAllPath ("tasks".toList)
        (some [(("status".toList), JsVal.undef)])
        = ("/api/tasks/".toList) := by
  refine ⟨?_, ?_, by decide, by decide⟩
  · intro name entries
    simp only [UniversalApi.getAllPath, UniversalApi.buildQuery]
    rw [buildParams_eq]
    cases hk : entries.filter (fun kv => definedVal kv.2) with
    | nil => simp [paramsToString, List.intercalate]
    | cons kv rest =>
      have hne := paramsToString_cons_ne_nil
        (kv.1, jsString kv.2) (rest.map fun kv => (kv.1, jsString kv.2))
      have hfalse :
          (paramsToString ((kv :: rest).map fun kv => (kv.1, jsString kv.2))).isEmpty
            = false := by
        rw [List.map_cons]
        exact Bool.not_eq_true _ ▸ (fun h => hne (List.isEmpty_iff.mp h))
      simp only [hfalse, Bool.false_eq_true, if_false, List.cons_ne_nil]
      simp [paramsToString, serializePair, List.map_map, Function.comp]
      congr 2
      exact List.map_congr_left
        (fun a _ => by simp [Function.comp, serializePair, List.append_assoc])
  · intro name
    rfl

/-- Claim C6.  For each mutation operation (`create`, `update`, `remove`),
when the Entity Client call fails the thrown value is coerced to an error
object preserving the original message, that error is stored in the error
state, `loading` is set back to `false`, `data` is untouched, and the same
error is re-thrown to the awaiting caller — both the reactive channel and the
thrown channel fire. -/
theorem frontblok_C6_mutation_failure_channels :
    (∀ (T : Type) (st : MutS T) (e : JsVal),
        mutCreate st (.error e)
          = ({ st with error := some (coerceErr e), loading := false },
             .error (coerceErr e)))
    ∧ (∀ (T : Type) (st : MutS T) (id : JStr) (e : JsVal),
        mutUpdate st id (.error e)
          = ({ st with error := some (coerceErr e), loading := false },
             .error (coerceErr e)))
    ∧ (∀ (T : Type) (st : MutS T) (id : JStr) (e : JsVal),
        mutRemove st id (.error e)
          = ({ st with error := some (coerceErr e), loading := false },
             .error (coerceErr e)))
    ∧ (∀ m : JStr, coerceErr (.errObj m) = ⟨m⟩)
    ∧ (∀ r : JStr, coerceErr (.str r) = ⟨r⟩) :=
  ⟨fun _ _ _ => rfl, fun _ _ _ _ => rfl, fun _ _ _ _ => rfl,
   fun _ => rfl, fun _ => rfl⟩

/-- Claim C7.  A `useEntity` fetch with `id` absent never reaches the Entity
Client (the issued-request flag is `false`) and settles directly in the Ready
state: `item = null`, `loading = false`; the initial state for an absent `id`
likewise has `loading = false` and `item = null`. -/
theorem frontblok_C7_no_id_skips_fetch :
    (∀ (T : Type) (st : EntS T),
        entityFetchStart none st
          = ({ st with item := none, loading := false }, false))
    ∧ (∀ T : Type,
        entityInit T none
          = { item := none, loading := false, error := none, mounted := true }) :=
  ⟨fun _ _ => rfl, fun _ => rfl⟩

/-- Claim C8.  `remove()` on a `useEntityForm` instance with no id bound
throws `Error('Cannot delete: no entity ID provided')` (the spec's
`InvalidOperation`) without ever reaching the mutation machine or the Entity
Client, while with a (non-empty) id bound it delegates to the mutation
machine's `remove(id)`. -/
theorem frontblok_C8_form_remove :
    (formRemoveAction none
      = .threw ⟨("Cannot delete: no entity ID provided".toList)⟩)
    ∧ (∀ (c : Char) (r : JStr),
        formRemoveAction (some (c :: r)) = .delegated (c :: r)) :=
  ⟨rfl, fun _ _ => rfl⟩

/-- Claim C9.  When a `useEntityList` request fails while the instance is
mounted, the previously fetched items are left unchanged — only `error` is
set (to the coerced error) and `loading` is cleared; in particular after a
successful fetch of `d` followed by a failed refetch, the stale items `d`
remain observable alongside the error. -/
theorem frontblok_C9_list_failure_keeps_items :
    (∀ (T : Type) (it : List T) (ld : Bool) (er : Option ErrObj) (e : JsVal),
        listResolve ⟨it, ld, er, true⟩ (.error e)
          = ⟨it, false, some (coerceErr e), true⟩)
    ∧ (∀ (T : Type) (it : List T) (ld : Bool) (er : Option ErrObj)
        (d : List T) (e : JsVal),
        listRun ⟨it, ld, er, true⟩
            [.issue, .resolve (.ok d), .issue, .resolve (.error e)]
          = ⟨d, false, some (coerceErr e), true⟩) :=
  ⟨fun _ _ _ _ _ => rfl, fun _ _ _ _ _ _ => rfl⟩

/-- Claim C10.  When a `useEntity` request fails while the instance is
mounted, `item` is set to `null` in addition to storing the coerced error and
clearing `loading`: any previously loaded record is discarded on failure. -/
theorem frontblok_C10_entity_failure_clears_item :
    ∀ (T : Type) (it : Option T) (ld : Bool) (er : Option ErrObj) (e : JsVal),
      entityResolve ⟨it, ld, er, true⟩ (.error e)
        = ⟨none, false, some (coerceErr e), true⟩ :=
  fun _ _ _ _ _ => rfl

theorem length_dropEnd_one (s : JStr) : (dropEnd s 1).length = s.length - 1 := by
  simp [dropEnd, List.length_take]

theorem roundTrip_consonant_y (s : JStr) (h0 : endsWithStr (lowerStr s) sL = false)
    (h1 : 1 < s.length) (h2 : lastStr s = yL)
    (h3 : includesStr vowels (lowerStr (secondStr s)) = false) :
    toSingular (toPlural s) = s := by
  have hne : s ≠ [] := by
    intro h
    rw [h] at h1
    simp at h1
  have c0 : s.isEmpty = false := by
    cases s with
    | nil => exact absurd rfl hne
    | cons a t => rfl
  have hly : lowerStr yL = yL := by decide
  have cy : (decide (1 < s.length) && (lowerStr (lastStr s) == yL)
      && !(includesStr vowels (lowerStr (secondStr s)))) = true := by
    rw [h2, h3, hly]
    simp [h1]
  have hp : toPlural s = dropEnd s 1 ++ iesL := by
    unfold toPlural
    rw [c0, h0, cy]
    simp
  have hdecomp : dropEnd s 1 ++ yL = s := by
    rw [← h2]
    exact List.take_append_drop (s.length - 1) s
  have s1 : endsWithStr (dropEnd s 1 ++ iesL) iesL = true := endsWithStr_append _ _
  have s2 : (3 < (dropEnd s 1 ++ iesL).length) := by
    rw [List.length_append, length_dropEnd_one]
    have : (iesL).length = 3 := by decide
    omega
  have s2d : decide (3 < (dropEnd s 1 ++ iesL).length) = true := decide_eq_true s2
  have hs : toSingular (dropEnd s 1 ++ iesL) = dropEnd (dropEnd s 1 ++ iesL) 3 ++ yL := by
    unfold toSingular
    rw [s1, s2d]
    simp
  have hd3 : dropEnd (dropEnd s 1 ++ iesL) 3 = dropEnd s 1 := dropEnd_append _ iesL
  rw [hp, hs, hd3, hdecomp]

theorem roundTrip_es_core (t w : JStr) (c : Char)
    (hcl : Char.toLower c = c) (hcy : Char.toLower c ≠ 'y') (hci : 'i' ≠ c)
    (hlw : lowerStr w = w)
    (hmem : (w ++ [c]) ∈ esEndings)
    (hstem : (w ++ [c]) ∈ esStems)
    (h0 : endsWithStr (lowerStr (t ++ (w ++ [c]))) sL = false) :
    toSingular (toPlural (t ++ (w ++ [c]))) = t ++ (w ++ [c]) := by
  have hne : t ++ (w ++ [c]) ≠ [] := by simp
  have c0 : (t ++ (w ++ [c])).isEmpty = false := by
    cases h : t ++ (w ++ [c]) with
    | nil => exact absurd h hne
    | cons a l => rfl
  have hlc : lowerStr [c] = [c] := by simp [lowerStr, hcl]
  have hlower : lowerStr (t ++ (w ++ [c])) = lowerStr t ++ (w ++ [c]) := by
    rw [lowerStr_append, lowerStr_append, hlw, hlc]
  have hlast : lastStr (t ++ (w ++ [c])) = [c] := by
    rw [← List.append_assoc]
    exact lastStr_concat (t ++ w) c
  have hcny : ([c] == yL) = false := by
    rw [beq_eq_false_iff_ne]
    intro h
    apply hcy
    have hc : c = 'y' := by
      injection h
    rw [hc] at hcl ⊢
    exact hcl
  have cy : (decide (1 < (t ++ (w ++ [c])).length)
      && (lowerStr (lastStr (t ++ (w ++ [c]))) == yL)
      && !(includesStr vowels (lowerStr (secondStr (t ++ (w ++ [c])))))) = false := by
    rw [hlast, hlc, hcny]
    simp
  have ces : esEndings.any
      (fun u => endsWithStr (lowerStr (t ++ (w ++ [c]))) u) = true := by
    rw [hlower]
    exact List.any_eq_true.mpr
      ⟨w ++ [c], hmem, endsWithStr_append (lowerStr t) (w ++ [c])⟩
  have hp : toPlural (t ++ (w ++ [c])) = (t ++ (w ++ [c])) ++ esL := by
    unfold toPlural
    rw [c0, h0, cy, ces]
    simp
  have s1 : endsWithStr ((t ++ (w ++ [c])) ++ esL) iesL = false := by
    have h : iesL = ['i'] ++ esL := by decide
    rw [h, endsWithStr_append_right, ← List.append_assoc]
    exact decide_eq_false (fun hsf => hci (single_suffix_iff.mp hsf))
  have s2 : endsWithStr ((t ++ (w ++ [c])) ++ esL) esL = true :=
    endsWithStr_append _ _
  have s3 : decide (2 < ((t ++ (w ++ [c])) ++ esL).length) = true := by
    apply decide_eq_true
    have h1 : (esL).length = 2 := by decide
    have h2 : 0 < (t ++ (w ++ [c])).length := by simp
    rw [List.length_append, h1]
    omega
  have s4 : dropEnd ((t ++ (w ++ [c])) ++ esL) 2 = t ++ (w ++ [c]) :=
    dropEnd_append _ esL
  have s5 : esStems.any
      (fun u => endsWithStr (dropEnd ((t ++ (w ++ [c])) ++ esL) 2) u) = true := by
    rw [s4]
    exact List.any_eq_true.mpr
      ⟨w ++ [c], hstem, endsWithStr_append t (w ++ [c])⟩
  have hsing : toSingular ((t ++ (w ++ [c])) ++ esL)
      = dropEnd ((t ++ (w ++ [c])) ++ esL) 2 := by
    unfold toSingular
    rw [s1, s2, s3, s5]
    simp
  rw [hp, hsing, s4]

theorem roundTrip_es (s : JStr) (hne : s ≠ [])
    (h0 : endsWithStr (lowerStr s) sL = false)
    (h1 : esEndings.any (fun u => endsWithStr s u) = true) :
    toSingular (toPlural s) = s := by
  obtain ⟨u, hu, hsu⟩ := List.any_eq_true.mp h1
  obtain ⟨t, ht⟩ := endsWithStr_iff.mp hsu
  subst ht
  simp [esEndings, chL, shL, xL, zL, oL] at hu
  rcases hu with h | h | h | h | h <;> subst h
  · exact roundTrip_es_core t ['c'] 'h' (by decide) (by decide) (by decide)
      (by decide) (by decide) (by decide) h0
  · exact roundTrip_es_core t ['s'] 'h' (by decide) (by decide) (by decide)
      (by decide) (by decide) (by decide) h0
  · exact roundTrip_es_core t [] 'x' (by decide) (by decide) (by decide)
      (by decide) (by decide) (by decide) h0
  · exact roundTrip_es_core t [] 'z' (by decide) (by decide) (by decide)
      (by decide) (by decide) (by decide) h0
  · exact roundTrip_es_core t [] 'o' (by decide) (by decide) (by decide)
      (by decide) (by decide) (by decide) h0

theorem roundTrip_default_s (s : JStr) (hne : s ≠ [])
    (h0 : endsWithStr (lowerStr s) sL = false)
    (hy : (decide (1 < s.length) && (lowerStr (lastStr s) == yL)
        && !(includesStr vowels (lowerStr (secondStr s)))) = false)
    (hes : esEndings.any (fun u => endsWithStr (lowerStr s) u) = false)
    (hie : endsWithStr s ieL = true → s.length < 3)
    (he : endsWithStr s eL = true →
      esStems.any (fun u => endsWithStr (dropEnd s 1) u) = false) :
    toSingular (toPlural s) = s := by
  have c0 : s.isEmpty = false := by
    cases s with
    | nil => exact absurd rfl hne
    | cons a t => rfl
  have hp : toPlural s = s ++ sL := by
    unfold toPlural
    rw [c0, h0, hy, hes]
    simp
  rw [hp]
  have hlenpos : 0 < s.length := List.length_pos.mpr hne
  have hslen : (sL).length = 1 := by decide
  have hies_iff : endsWithStr (s ++ sL) iesL = endsWithStr s ieL := by
    have h : iesL = ieL ++ sL := by decide
    rw [h, endsWithStr_append_right]
  have hes_iff : endsWithStr (s ++ sL) esL = endsWithStr s eL := by
    have h : esL = eL ++ sL := by decide
    rw [h, endsWithStr_append_right]
  by_cases hie2 : endsWithStr s ieL = true
  · have hl3 := hie hie2
    have hsuf : ieL <:+ s := endsWithStr_iff.mp hie2
    have hielen : (ieL).length = 2 := by decide
    have hl2 : 2 ≤ s.length := by
      have hle := hsuf.length_le
      omega
    have hseq : s = ieL := (hsuf.eq_of_length (by omega)).symm
    rw [hseq]
    decide
  · rw [Bool.not_eq_true] at hie2
    have s1f : endsWithStr (s ++ sL) iesL = false := by
      rw [hies_iff]
      exact hie2
    by_cases he2 : endsWithStr s eL = true
    · by_cases hl1 : s.length = 1
      · have hsuf : eL <:+ s := endsWithStr_iff.mp he2
        have helen : (eL).length = 1 := by decide
        have hseq : s = eL := (hsuf.eq_of_length (by omega)).symm
        rw [hseq]
        decide
      · have hl2 : 2 ≤ s.length := by omega
        have s2t : endsWithStr (s ++ sL) esL = true := by
          rw [hes_iff]
          exact he2
        have s3 : decide (2 < (s ++ sL).length) = true := by
          apply decide_eq_true
          rw [List.length_append, hslen]
          omega
        have hdrop : dropEnd (s ++ sL) 2 = dropEnd s 1 := by
          have hl : (s ++ sL).length - 2 = s.length - 1 := by
            rw [List.length_append, hslen]
            omega
          rw [dropEnd, hl, List.take_append_eq_append_take]
          have hz : s.length - 1 - s.length = 0 := by omega
          rw [hz]
          simp [dropEnd]
        have s5f : esStems.any
            (fun u => endsWithStr (dropEnd (s ++ sL) 2) u) = false := by
          rw [hdrop]
          exact he he2
        have hsing : toSingular (s ++ sL) = dropEnd (s ++ sL) 1 := by
          unfold toSingular
          rw [s1f, s2t, s3, s5f]
          simp
        rw [hsing]
        exact dropEnd_append s sL
    · rw [Bool.not_eq_true] at he2
      have s2f : endsWithStr (s ++ sL) esL = false := by
        rw [hes_iff]
        exact he2
      have s6 : endsWithStr (s ++ sL) sL = true := endsWithStr_append _ _
      have s7 : decide (1 < (s ++ sL).length) = true := by
        apply decide_eq_true
        rw [List.length_append, hslen]
        omega
      have hsing : toSingular (s ++ sL) = dropEnd (s ++ sL) 1 := by
        unfold toSingular
        rw [s1f, s2f, s6, s7]
        simp
      rw [hsing]
      exact dropEnd_append s sL

/-- Claim C3, counterexample.  The word `"axe"` is a regular-plural input: it
is handled by `toPlural`'s default plain-`+s` rule, giving `"axes"`.  But
`toSingular("axes")` takes the `es`-branch (the stem `"ax"` ends in `x`) and
returns `"ax"`, so `toSingular(toPlural("axe")) = "ax" ≠ "axe"`, refuting the
claim that the round trip restores every regular-plural input. -/
theorem frontblok_C3_counterexample :
    toPlural ("axe".toList) = ("axes".toList)
    ∧ toSingular ("axes".toList) = ("ax".toList)
    ∧ toSingular (toPlural ("axe".toList)) ≠ ("axe".toList) := by
  decide

/-- Claim C3, amended.  `toSingular (toPlural w) = w` holds for the
regular-plural inputs whose pluralization suffix survives the singularizer's
heuristics, namely: (1) words whose literal last character is `'y'` after a
non-vowel (the `ies` rule); (2) words literally ending in lowercase
`ch`/`sh`/`x`/`z`/`o` (the `es` rule); (3) words taking the default `+s` rule,
except those ending in `"ie"` with length ≥ 3 and those ending in `"e"` whose
stem ends in `ch`/`sh`/`ss`/`x`/`z`/`o` (such as the counterexample `"axe"`).
In particular `"task" → "tasks" → "task"` and
`"category" → "categories" → "category"`. -/
theorem frontblok_C3_regular_round_trip :
    (∀ s : JStr, endsWithStr (lowerStr s) sL = false → 1 < s.length →
        lastStr s = yL → includesStr vowels (lowerStr (secondStr s)) = false →
        toSingular (toPlural s) = s)
    ∧ (∀ s : JStr, s ≠ [] → endsWithStr (lowerStr s) sL = false →
        esEndings.any (fun u => endsWithStr s u) = true →
        toSingular (toPlural s) = s)
    ∧ (∀ s : JStr, s ≠ [] → endsWithStr (lowerStr s) sL = false →
        (decide (1 < s.length) && (lowerStr (lastStr s) == yL)
          && !(includesStr vowels (lowerStr (secondStr s)))) = false →
        esEndings.any (fun u => endsWithStr (lowerStr s) u) = false →
        (endsWithStr s ieL = true → s.length < 3) →
        (endsWithStr s eL = true →
          esStems.any (fun u => endsWithStr (dropEnd s 1) u) = false) →
        toSingular (toPlural s) = s)
    ∧ toSingular (toPlural ("task".toList)) = ("task".toList)
    ∧ toSingular (toPlural ("category".toList)) = ("category".toList) :=
  ⟨roundTrip_consonant_y, roundTrip_es, roundTrip_default_s,
   by decide, by decide⟩

/-- Witness for the amended C3 theorem: its `es`-rule component applied at the
concrete input `"box"`, every hypothesis discharged by evaluation. -/
theorem frontblok_C3_regular_round_trip_witness :
    toSingular (toPlural ("box".toList)) = ("box".toList) :=
  frontblok_C3_regular_round_trip.2.1 ("box".toList)
    (by decide) (by decide) (by decide)
